import Mathlib

/-!
Verification development for the firewall rule audit engine
(modules/anomaly_detector.py).  The definitions below are a shallow
embedding of the source: Python dictionaries become structures, machine
integers become Int/Nat, and code paths that can raise an uncaught
exception return Option (none models the propagated exception).
-/

set_option maxHeartbeats 1000000
set_option maxRecDepth 4000

/-- A firewall rule record, as produced by the external rule loader
(rule_parser.normalize_rules): every field present and normalized. -/
structure Rule where
  id : String
  name : String
  source : String
  destination : String
  port : String
  protocol : String
  action : String
  priority : Int
  hit_count : Nat
  deriving DecidableEq, Inhabited

/-- One anomaly finding.  The presentational text fields of the source
(description, impact, recommendation) are omitted; the structural fields
are kept.  Option fields model presence or absence of the corresponding
keys in the source dictionaries. -/
structure Finding where
  rule : Rule
  by_rule : Option Rule := none
  reference : Option Rule := none
  kind : Option String := none
  issues : List String := []
  service : Option String := none
  covered_rules : Option (List Rule) := none
  count : Nat := 0
  severity : String
  deriving DecidableEq, Inhabited

/-- Splitting of a character list at every occurrence of a separator, as
Python str.split with a one-character separator (structural recursion, so
that concrete inputs evaluate inside the kernel). -/
def splitCharAux (c : Char) : List Char → List Char → List (List Char)
  | [], acc => [acc.reverse]
  | x :: xs, acc =>
    if x = c then acc.reverse :: splitCharAux c xs [] else splitCharAux c xs (x :: acc)

/-- Python str.split with a one-character separator. -/
def splitChar (c : Char) (s : String) : List String :=
  (splitCharAux c s.data []).map (fun l => String.mk l)

/-- Split at the first occurrence of a separator only, as Python str.split
with maxsplit 1: the part before it, and the remainder when found. -/
def splitFirstAux (c : Char) : List Char → List Char → List Char × Option (List Char)
  | [], acc => (acc.reverse, none)
  | x :: xs, acc =>
    if x = c then (acc.reverse, some xs) else splitFirstAux c xs (x :: acc)

/-- Python str.strip: drop surrounding whitespace. -/
def pyStrip (s : String) : String :=
  String.mk (((s.data.dropWhile Char.isWhitespace).reverse.dropWhile Char.isWhitespace).reverse)

/-- A nonempty all-digit character list as a number. -/
def digitsToNatAux : List Char → Nat → Option Nat
  | [], acc => some acc
  | c :: cs, acc => if c.isDigit then digitsToNatAux cs (acc * 10 + (c.toNat - 48)) else none

/-- A nonempty all-digit character list as a number; none otherwise. -/
def digitsToNat? : List Char → Option Nat
  | [] => none
  | cs => digitsToNatAux cs 0

/-- Python int() applied to a string: optional surrounding whitespace,
optional sign, then a nonempty digit sequence; none models the raised
ValueError on anything else. -/
def pyInt? (s : String) : Option Int :=
  match (pyStrip s).data with
  | [] => none
  | '-' :: rest => (digitsToNat? rest).map (fun n => -(n : Int))
  | '+' :: rest => (digitsToNat? rest).map (fun n => (n : Int))
  | cs => (digitsToNat? cs).map (fun n => (n : Int))

/-- One comma-separated token of a port expression: a bare number, or a
range split at the first dash (Python split with maxsplit 1). -/
def parsePortToken (part : String) : Option (Int × Int) :=
  if part.data.contains '-' then
    match splitFirstAux '-' part.data [] with
    | (s, some rest) =>
      match pyInt? (String.mk s), pyInt? (String.mk rest) with
      | some a, some b => some (a, b)
      | _, _ => none
    | (_, none) => none
  else
    match pyInt? part with
    | some n => some (n, n)
    | none => none

/-- All tokens of a port expression; none as soon as one token is malformed
(the uncaught ValueError of the source). -/
def parseTokens : List String → Option (List (Int × Int))
  | [] => some []
  | p :: rest =>
    match parsePortToken p, parseTokens rest with
    | some iv, some tail => some (iv :: tail)
    | _, _ => none

/-- parse_ports from the source: the sentinels "*", "any" and "" expand to
the full range, otherwise the comma-separated tokens are expanded one by
one. -/
def parse_ports (port_str : String) : Option (List (Int × Int)) :=
  if port_str = "*" ∨ port_str = "any" ∨ port_str = "" then some [(1, 65535)]
  else parseTokens ((splitChar ',' port_str).map pyStrip)

/-- Full coverage of interval a by interval b. -/
def portCovered (a b : Int × Int) : Bool :=
  decide (b.1 ≤ a.1 ∧ a.2 ≤ b.2)

/-- is_port_subset from the source: every interval of port_a is fully
covered by at least one interval of port_b. -/
def is_port_subset (port_a port_b : String) : Option Bool :=
  match parse_ports port_a, parse_ports port_b with
  | some a_ranges, some b_ranges =>
    some (a_ranges.all (fun a => b_ranges.any (fun b => portCovered a b)))
  | _, _ => none

/-- One dotted-quad octet as accepted by the Python ipaddress module:
digits only, at most three of them, no leading zero, value at most 255. -/
def parseOctet (s : String) : Option Nat :=
  match digitsToNat? s.data with
  | none => none
  | some n =>
    if s.data.length > 3 then none
    else if s.data.length > 1 ∧ s.data.head? = some '0' then none
    else if n ≤ 255 then some n else none

/-- A dotted-quad IPv4 address as an integer. -/
def parseIPv4Addr (s : String) : Option Nat :=
  match splitChar '.' s with
  | [a, b, c, d] =>
    match parseOctet a, parseOctet b, parseOctet c, parseOctet d with
    | some a, some b, some c, some d => some (((a * 256 + b) * 256 + c) * 256 + d)
    | _, _, _, _ => none
  | _ => none

/-- A CIDR prefix length: digit-only string, value at most 32. -/
def parsePrefixLen (s : String) : Option Nat :=
  match digitsToNat? s.data with
  | some n => if n ≤ 32 then some n else none
  | none => none

/-- ipaddress.ip_network with strict set to False, over dotted-quad IPv4
with an optional prefix: the first and last address of the network as
integers.  Address strings outside this grammar are treated as
unparseable and take the string-equality fallback in is_ip_subset. -/
def ip_network (s : String) : Option (Nat × Nat) :=
  match splitChar '/' s with
  | [addr] =>
    match parseIPv4Addr addr with
    | some a => some (a, a)
    | none => none
  | [addr, p] =>
    match parseIPv4Addr addr, parsePrefixLen p with
    | some a, some pl =>
      let block := 2 ^ (32 - pl)
      let start := a / block * block
      some (start, start + block - 1)
    | _, _ => none
  | _ => none

/-- is_ip_subset from the source: universal superset wins, a universal
value inside a concrete superset loses, string equality wins, then
network containment, with string equality as the fallback on a parse
failure. -/
def is_ip_subset (value superset : String) : Bool :=
  if superset = "*" ∨ superset = "any" then true
  else if value = "*" ∨ value = "any" then false
  else if value = superset then true
  else
    match ip_network value, ip_network superset with
    | some v, some s => decide (s.1 ≤ v.1 ∧ v.2 ≤ s.2)
    | _, _ => decide (value = superset)

/-- is_protocol_subset from the source. -/
def is_protocol_subset (proto superset_proto : String) : Bool :=
  if superset_proto = "any" then true
  else if proto = "any" then false
  else decide (proto = superset_proto)

/-- traffic_subset from the source: conjunction over source, destination,
port and protocol with Python short-circuit evaluation; none models the
uncaught port-parse error, reachable only after both address tests pass. -/
def traffic_subset (rule_a rule_b : Rule) : Option Bool :=
  if !(is_ip_subset rule_a.source rule_b.source) then some false
  else if !(is_ip_subset rule_a.destination rule_b.destination) then some false
  else
    match is_port_subset rule_a.port rule_b.port with
    | none => none
    | some false => some false
    | some true => some (is_protocol_subset rule_a.protocol rule_b.protocol)

/-- is_overly_generic from the source. -/
def is_overly_generic (rule : Rule) : Bool :=
  decide (rule.source = "*" ∨ rule.source = "any" ∨
    rule.destination = "*" ∨ rule.destination = "any" ∨
    rule.port = "*" ∨ rule.port = "any" ∨
    rule.protocol = "any")

/-- The numeric order behind highest_severity. -/
def sevOrder (s : String) : Nat :=
  if s = "high" then 3 else if s = "medium" then 2 else if s = "low" then 1 else 0

/-- Python max with a key function: the first element of maximal key. -/
def maxByOrder (cur : String) : List String → String
  | [] => cur
  | s :: rest => if sevOrder cur < sevOrder s then maxByOrder s rest else maxByOrder cur rest

/-- highest_severity from the source. -/
def highest_severity (severities : List String) : String :=
  match severities with
  | [] => "low"
  | s :: rest => maxByOrder s rest

/-- max_severity from the source. -/
def max_severity (a b : String) : String := highest_severity [a, b]

/-- The shadowing finding attached to the current rule by an earlier rule. -/
def mkShadowFinding (rule other : Rule) : Finding :=
  { rule := rule, by_rule := some other, severity := "high" }

/-- Inner scan of detect_shadowed_rules over the rules preceding the
current one, in list order, stopping at the first hit. -/
def shadowScan (rule : Rule) : List Rule → Option (Option Finding)
  | [] => some none
  | other :: rest =>
    if rule.priority ≤ other.priority then shadowScan rule rest
    else if rule.action = other.action then shadowScan rule rest
    else
      match traffic_subset rule other with
      | none => none
      | some true => some (some (mkShadowFinding rule other))
      | some false => shadowScan rule rest

/-- Outer loop of detect_shadowed_rules; prev carries the rules before the
current position. -/
def detect_shadowed_aux (prev : List Rule) : List Rule → Option (List Finding)
  | [] => some []
  | rule :: rest =>
    match shadowScan rule prev with
    | none => none
    | some hit =>
      match detect_shadowed_aux (prev ++ [rule]) rest with
      | none => none
      | some tail => some (hit.toList ++ tail)

/-- detect_shadowed_rules from the source. -/
def detect_shadowed_rules (rules : List Rule) : Option (List Finding) :=
  detect_shadowed_aux [] rules

/-- A redundancy finding on subject, referencing ref. -/
def mkRedundantFinding (subject ref : Rule) (k : String) : Finding :=
  { rule := subject, reference := some ref, kind := some k, severity := "low" }

/-- One inner-loop step of detect_redundant_rules for the ordered pair
(rule, other), with the Python evaluation and short-circuit order: the
duplicate test first, then the subset test which re-evaluates containment
of other in rule. -/
def redundantPair (rule other : Rule) : Option (Option Finding) :=
  if rule.action ≠ other.action then some none
  else
    match traffic_subset rule other with
    | none => none
    | some true =>
      match traffic_subset other rule with
      | none => none
      | some true => some (some (mkRedundantFinding other rule "duplicate"))
      | some false => some none
    | some false =>
      match traffic_subset other rule with
      | none => none
      | some ba =>
        if ba && !(is_overly_generic rule) then some (some (mkRedundantFinding other rule "subset"))
        else some none

/-- Inner loop of detect_redundant_rules over the rules after the current
one. -/
def redundantScan (rule : Rule) : List Rule → Option (List Finding)
  | [] => some []
  | other :: rest =>
    match redundantPair rule other with
    | none => none
    | some hit =>
      match redundantScan rule rest with
      | none => none
      | some tail => some (hit.toList ++ tail)

/-- detect_redundant_rules from the source. -/
def detect_redundant_rules : List Rule → Option (List Finding)
  | [] => some []
  | rule :: rest =>
    match redundantScan rule rest with
    | none => none
    | some here =>
      match detect_redundant_rules rest with
      | none => none
      | some tail => some (here ++ tail)

/-- The sensitive port set of detect_permissive_rules. -/
def sensitive_ports : List String :=
  ["22", "23", "3389", "445", "139", "21", "3306", "5432", "1433"]

def permIssue1 : String := "Autorise tout trafic (any vers any)."

def permIssue2 (port : String) : String := "Port sensible " ++ port ++ " ouvert à tous."

def permIssue3 : String := "Tous les protocoles autorisés depuis n\x27importe où."

def permIssue4 : String := "Tous les ports ouverts depuis n\x27importe où."

def permCheck1 (rule : Rule) : Bool := decide (rule.source = "*" ∧ rule.destination = "*")

def permCheck2 (rule : Rule) : Bool := decide (rule.source = "*" ∧ rule.port ∈ sensitive_ports)

def permCheck3 (rule : Rule) : Bool := decide (rule.protocol = "any" ∧ rule.source = "*")

def permCheck4 (rule : Rule) : Bool := decide (rule.port = "*" ∧ rule.source = "*")

/-- Per-rule body of detect_permissive_rules: the four checks in source
order, severity starting at low, the first check assigning high and the
others raising the floor to medium through max_severity. -/
def permissiveFinding (rule : Rule) : Option Finding :=
  if rule.action ≠ "allow" then none
  else
    let issues1 : List String := if permCheck1 rule then [permIssue1] else []
    let sev1 : String := if permCheck1 rule then "high" else "low"
    let issues2 := if permCheck2 rule then issues1 ++ [permIssue2 rule.port] else issues1
    let sev2 := if permCheck2 rule then max_severity sev1 "medium" else sev1
    let issues3 := if permCheck3 rule then issues2 ++ [permIssue3] else issues2
    let sev3 := if permCheck3 rule then max_severity sev2 "medium" else sev2
    let issues4 := if permCheck4 rule then issues3 ++ [permIssue4] else issues3
    let sev4 := if permCheck4 rule then max_severity sev3 "medium" else sev3
    if issues4.isEmpty then none
    else some { rule := rule, issues := issues4, severity := sev4 }

/-- detect_permissive_rules from the source. -/
def detect_permissive_rules (rules : List Rule) : List Finding :=
  rules.filterMap permissiveFinding

/-- detect_unused_rules from the source. -/
def detect_unused_rules (rules : List Rule) : List Finding :=
  rules.filterMap (fun rule =>
    if rule.hit_count = 0 then some { rule := rule, severity := "low" } else none)

/-- UNSAFE_SERVICES from the source, in dictionary insertion order. -/
def UNSAFE_SERVICES : List (String × String) :=
  [("21", "FTP non chiffré"), ("23", "Telnet en clair"), ("80", "HTTP non chiffré"),
   ("139", "NetBIOS"), ("445", "SMB"), ("3306", "MySQL"), ("3389", "RDP"), ("5900", "VNC")]

/-- The unsafe-service finding for a rule: severity high when the source is
universal, medium otherwise. -/
def mkUnsafeFinding (rule : Rule) (service : String) : Finding :=
  { rule := rule, service := some service,
    severity := if rule.source = "*" ∨ rule.source = "any" then "high" else "medium" }

/-- Scan of the unsafe-service table for one rule, in table order, with the
Python or-short-circuit of the two containment directions, stopping at the
first hit. -/
def unsafeScan (rule : Rule) : List (String × String) → Option (Option Finding)
  | [] => some none
  | entry :: rest =>
    match is_port_subset entry.1 rule.port with
    | none => none
    | some true => some (some (mkUnsafeFinding rule entry.2))
    | some false =>
      match is_port_subset rule.port entry.1 with
      | none => none
      | some true => some (some (mkUnsafeFinding rule entry.2))
      | some false => unsafeScan rule rest

/-- detect_unsafe_services from the source. -/
def detect_unsafe_services : List Rule → Option (List Finding)
  | [] => some []
  | rule :: rest =>
    if rule.action ≠ "allow" then detect_unsafe_services rest
    else
      match unsafeScan rule UNSAFE_SERVICES with
      | none => none
      | some hit =>
        match detect_unsafe_services rest with
        | none => none
        | some tail => some (hit.toList ++ tail)

/-- The generalization finding: medium, escalated to high when the rule
itself is overly generic. -/
def mkGeneralizedFinding (rule : Rule) (covered : List Rule) : Finding :=
  { rule := rule, covered_rules := some covered, count := covered.length,
    severity := if is_overly_generic rule then "high" else "medium" }

/-- Inner loop of detect_generalized_rules: the Python object-identity test
(other is rule) is modelled positionally, j being the index of the
candidate and i that of the current rule. -/
def genCovered (rule : Rule) (i : Nat) : Nat → List Rule → Option (List Rule)
  | _, [] => some []
  | j, other :: rest =>
    if j = i then genCovered rule i (j + 1) rest
    else if rule.action ≠ other.action then genCovered rule i (j + 1) rest
    else
      match traffic_subset other rule with
      | none => none
      | some false => genCovered rule i (j + 1) rest
      | some true =>
        match traffic_subset rule other with
        | none => none
        | some true => genCovered rule i (j + 1) rest
        | some false =>
          match genCovered rule i (j + 1) rest with
          | none => none
          | some tail => some (other :: tail)

/-- Outer loop of detect_generalized_rules over the indexed rules. -/
def detect_generalized_aux (rules : List Rule) : List (Nat × Rule) → Option (List Finding)
  | [] => some []
  | (i, rule) :: rest =>
    match genCovered rule i 0 rules with
    | none => none
    | some covered =>
      match detect_generalized_aux rules rest with
      | none => none
      | some tail =>
        some (if covered.isEmpty then tail else mkGeneralizedFinding rule covered :: tail)

/-- detect_generalized_rules from the source. -/
def detect_generalized_rules (rules : List Rule) : Option (List Finding) :=
  detect_generalized_aux rules rules.enum

/-- Accumulator entry of build_correlation before reduction. -/
structure CorrAcc where
  rule : Rule
  tags : List String
  severities : List String
  deriving DecidableEq, Inhabited

/-- One entry of the correlation view. -/
structure CorrEntry where
  rule : Rule
  tags : List String
  severity : Option String
  deriving DecidableEq, Inhabited

/-- Python dict insertion: replace the value at an existing key, append a
new key at the end otherwise. -/
def dictInsert (m : List (String × CorrAcc)) (k : String) (v : CorrAcc) :
    List (String × CorrAcc) :=
  if m.any (fun kv => kv.1 == k) then
    m.map (fun kv => if kv.1 == k then (k, v) else kv)
  else m ++ [(k, v)]

/-- The seed map of build_correlation: one empty accumulator per rule,
keyed by id. -/
def seedCorr (rules : List Rule) : List (String × CorrAcc) :=
  rules.foldl (fun m r => dictInsert m r.id { rule := r, tags := [], severities := [] }) []

/-- Append one tag and one severity to the accumulator of the given id;
none is the uncaught KeyError of the source when the id is absent. -/
def corrTag (m : List (String × CorrAcc)) (rid tag sev : String) :
    Option (List (String × CorrAcc)) :=
  if m.any (fun kv => kv.1 == rid) then
    some (m.map (fun kv =>
      if kv.1 == rid then
        (kv.1, { kv.2 with tags := kv.2.tags ++ [tag], severities := kv.2.severities ++ [sev] })
      else kv))
  else none

/-- Iterated corrTag over a list of (id, tag) touches, all with the same
severity. -/
def corrTagFold (sev : String) (m : List (String × CorrAcc)) :
    List (String × String) → Option (List (String × CorrAcc))
  | [] => some m
  | t :: rest =>
    match corrTag m t.1 t.2 sev with
    | none => none
    | some m2 => corrTagFold sev m2 rest

/-- Processing of one finding inside build_correlation: tag the subject
rule with the category, then the by_rule link, then the reference link,
then every covered rule with the literal tag "covered". -/
def corrFinding (key : String) (m : List (String × CorrAcc)) (item : Finding) :
    Option (List (String × CorrAcc)) :=
  match corrTag m item.rule.id key item.severity with
  | none => none
  | some m1 =>
    match (match item.by_rule with
           | none => some m1
           | some lr => corrTag m1 lr.id key item.severity) with
    | none => none
    | some m2 =>
      match (match item.reference with
             | none => some m2
             | some lr => corrTag m2 lr.id key item.severity) with
      | none => none
      | some m3 =>
        match item.covered_rules with
        | none => some m3
        | some crs => corrTagFold item.severity m3 (crs.map (fun cr => (cr.id, "covered")))

/-- All findings of one category, in order. -/
def corrItems (key : String) (m : List (String × CorrAcc)) :
    List Finding → Option (List (String × CorrAcc))
  | [] => some m
  | item :: rest =>
    match corrFinding key m item with
    | none => none
    | some m2 => corrItems key m2 rest

/-- All categories, in dictionary order. -/
def corrCats (m : List (String × CorrAcc)) :
    List (String × List Finding) → Option (List (String × CorrAcc))
  | [] => some m
  | kv :: rest =>
    match corrItems kv.1 m kv.2 with
    | none => none
    | some m2 => corrCats m2 rest

/-- Python sorted over the set of accumulated tags: the ascending
enumeration of the distinct elements. -/
def sortedDedup (l : List String) : List String :=
  List.insertionSort (fun a b => a ≤ b) l.dedup

/-- build_correlation from the source.  The source iterates the anomalies
dictionary skipping the correlated and severity_counts keys; the embedding
receives the six detector categories directly. -/
def build_correlation (rules : List Rule) (anomalies : List (String × List Finding)) :
    Option (List CorrEntry) :=
  match corrCats (seedCorr rules) anomalies with
  | none => none
  | some m =>
    some (m.map (fun kv =>
      { rule := kv.2.rule, tags := sortedDedup kv.2.tags,
        severity :=
          if kv.2.severities.isEmpty then none
          else some (highest_severity kv.2.severities) }))

/-- The three severity counters. -/
structure SevCounts where
  high : Nat
  medium : Nat
  low : Nat
  deriving DecidableEq, Inhabited

/-- One step of count_severities: a severity outside the three counters is
ignored, as in the source. -/
def bumpSev (c : SevCounts) (sev : String) : SevCounts :=
  if sev = "high" then { c with high := c.high + 1 }
  else if sev = "medium" then { c with medium := c.medium + 1 }
  else if sev = "low" then { c with low := c.low + 1 }
  else c

/-- count_severities from the source, over the six detector categories
(the source skips the correlated and severity_counts keys of its input
dictionary). -/
def count_severities (cats : List (String × List Finding)) : SevCounts :=
  cats.foldl (fun c kv => kv.2.foldl (fun c2 item => bumpSev c2 item.severity) c)
    { high := 0, medium := 0, low := 0 }

/-- The composite report of detect_all_anomalies. -/
structure Report where
  shadowed : List Finding
  redundant : List Finding
  permissive : List Finding
  unused : List Finding
  unsafe_services : List Finding
  generalized : List Finding
  correlated : List CorrEntry
  severity_counts : SevCounts
  deriving DecidableEq, Inhabited

/-- The six detector categories of a report, in the dictionary order of
the source. -/
def reportCats (rep : Report) : List (String × List Finding) :=
  [("shadowed", rep.shadowed), ("redundant", rep.redundant),
   ("permissive", rep.permissive), ("unused", rep.unused),
   ("unsafe_services", rep.unsafe_services), ("generalized", rep.generalized)]

/-- detect_all_anomalies from the source: the six detectors in source
order, then the correlation view and the severity counts; the first
uncaught detector error aborts the whole audit. -/
def detect_all_anomalies (rules : List Rule) : Option Report :=
  match detect_shadowed_rules rules with
  | none => none
  | some shadowed =>
    match detect_redundant_rules rules with
    | none => none
    | some redundant =>
      match detect_unsafe_services rules with
      | none => none
      | some us =>
        match detect_generalized_rules rules with
        | none => none
        | some generalized =>
          match build_correlation rules
              [("shadowed", shadowed), ("redundant", redundant),
               ("permissive", detect_permissive_rules rules),
               ("unused", detect_unused_rules rules),
               ("unsafe_services", us), ("generalized", generalized)] with
          | none => none
          | some correlated =>
            some { shadowed := shadowed, redundant := redundant,
                   permissive := detect_permissive_rules rules,
                   unused := detect_unused_rules rules,
                   unsafe_services := us, generalized := generalized,
                   correlated := correlated,
                   severity_counts := count_severities
                     [("shadowed", shadowed), ("redundant", redundant),
                      ("permissive", detect_permissive_rules rules),
                      ("unused", detect_unused_rules rules),
                      ("unsafe_services", us), ("generalized", generalized)] }

/-- Interval coverage is reflexive. -/
theorem portCovered_refl (a : Int × Int) : portCovered a a = true := by
  simp [portCovered]

/-- Interval coverage is transitive. -/
theorem portCovered_trans {a b c : Int × Int} (h1 : portCovered a b = true)
    (h2 : portCovered b c = true) : portCovered a c = true := by
  simp only [portCovered, decide_eq_true_eq] at h1 h2 ⊢
  omega

/-- Evaluation of is_port_subset once both expressions parse. -/
theorem is_port_subset_eval {A B : String} {ar br : List (Int × Int)}
    (hA : parse_ports A = some ar) (hB : parse_ports B = some br) :
    is_port_subset A B = some (ar.all fun a => br.any fun b => portCovered a b) := by
  rw [is_port_subset, hA, hB]

/-- A none on either side propagates through is_port_subset. -/
theorem is_port_subset_none {A B : String}
    (h : parse_ports A = none ∨ parse_ports B = none) : is_port_subset A B = none := by
  rcases h with h | h
  · rw [is_port_subset, h]
  · rw [is_port_subset, h]
    cases parse_ports A <;> rfl

/-- C5: port containment is reflexive on every port expression that
parses into intervals, and transitive: containment holds iff every
interval of the expansion of the left expression is fully covered by at
least one interval of the expansion of the right one. -/
theorem port_containment_refl_trans :
    (∀ P ivs, parse_ports P = some ivs → is_port_subset P P = some true) ∧
    (∀ A B C, is_port_subset A B = some true → is_port_subset B C = some true →
      is_port_subset A C = some true) := by
  constructor
  · intro P ivs h
    rw [is_port_subset_eval h h, Option.some.injEq, List.all_eq_true]
    intro a ha
    rw [List.any_eq_true]
    exact ⟨a, ha, portCovered_refl a⟩
  · intro A B C h1 h2
    cases hA : parse_ports A with
    | none => rw [is_port_subset_none (Or.inl hA)] at h1; cases h1
    | some ar =>
      cases hB : parse_ports B with
      | none => rw [is_port_subset_none (Or.inr hB)] at h1; cases h1
      | some br =>
        cases hC : parse_ports C with
        | none => rw [is_port_subset_none (Or.inr hC)] at h2; cases h2
        | some cr =>
          rw [is_port_subset_eval hA hB, Option.some.injEq] at h1
          rw [is_port_subset_eval hB hC, Option.some.injEq] at h2
          rw [is_port_subset_eval hA hC, Option.some.injEq]
          rw [List.all_eq_true] at h1 h2 ⊢
          intro a ha
          rw [List.any_eq_true]
          obtain ⟨b, hb, hab⟩ := List.any_eq_true.mp (h1 a ha)
          obtain ⟨c, hc, hbc⟩ := List.any_eq_true.mp (h2 b hb)
          exact ⟨c, hc, portCovered_trans hab hbc⟩

/-- Witness for C5 at concrete port expressions. -/
theorem port_containment_refl_trans_witness :
    (parse_ports "80" = some [(80, 80)] ∧ is_port_subset "80" "80" = some true) ∧
    (is_port_subset "80" "79-81" = some true ∧ is_port_subset "79-81" "*" = some true ∧
      is_port_subset "80" "*" = some true) :=
  ⟨⟨by decide, port_containment_refl_trans.1 "80" [(80, 80)] (by decide)⟩,
   ⟨by decide, by decide,
    port_containment_refl_trans.2 "80" "79-81" "*" (by decide) (by decide)⟩⟩

/-- A rule whose port expression holds a malformed token. -/
def badPortRule : Rule :=
  { id := "1", name := "r1", source := "*", destination := "*", port := "abc",
    protocol := "any", action := "deny", priority := 1, hit_count := 1 }

/-- A well-formed rule evaluated against badPortRule. -/
def plainAllowRule : Rule :=
  { id := "2", name := "r2", source := "*", destination := "*", port := "80",
    protocol := "tcp", action := "allow", priority := 2, hit_count := 1 }

/-- C9: a malformed port token makes interval expansion fail, the failure
propagates through the containment check of the affected pair, and the
whole audit aborts (none) instead of completing with a diagnostic: the
recoverable behaviour required by the claim is not what the code does. -/
theorem malformed_port_aborts_audit :
    parse_ports "abc" = none ∧
    traffic_subset plainAllowRule badPortRule = none ∧
    detect_shadowed_rules [badPortRule, plainAllowRule] = none ∧
    detect_all_anomalies [badPortRule, plainAllowRule] = none := by
  refine ⟨by decide, by decide, by decide, by decide⟩

/-- The all-universal allow rule of the C6 scenario. -/
def uniAllowRule : Rule :=
  { id := "9", name := "u", source := "*", destination := "*", port := "*",
    protocol := "any", action := "allow", priority := 1, hit_count := 1 }

/-- Counterexample for C6: on the all-universal allow rule the detector
emits one finding with exactly three issues, not four: the sensitive-port
check does not fire because the port expression "*" is not a member of
the sensitive-port set. -/
theorem permissive_universal_three_issues :
    detect_permissive_rules [uniAllowRule] =
      [{ rule := uniAllowRule, issues := [permIssue1, permIssue3, permIssue4],
         severity := "high" }] ∧
    (∀ f ∈ detect_permissive_rules [uniAllowRule],
      f.issues.length = 3 ∧ permIssue2 uniAllowRule.port ∉ f.issues) := by
  refine ⟨by decide, by decide⟩

/-- Spec 4.2: R is shadowed by O iff O has a strictly lower priority
value (higher precedence), a different action, and fully contains the
traffic of R. -/
def shadowQualifies (rule other : Rule) : Prop :=
  other.priority < rule.priority ∧ rule.action ≠ other.action ∧
    traffic_subset rule other = some true

instance shadowQualifiesDec (rule other : Rule) : Decidable (shadowQualifies rule other) := by
  unfold shadowQualifies
  infer_instance

/-- The first qualifying earlier rule, in list order. -/
def firstQualifying (rule : Rule) : List Rule → Option Rule
  | [] => none
  | o :: rest => if shadowQualifies rule o then some o else firstQualifying rule rest

/-- The shadowing findings as the spec words them: each rule scanned
against its predecessors, at most one finding per rule, for the first
qualifying predecessor, severity high. -/
def shadowedSpecAux (prev : List Rule) : List Rule → List Finding
  | [] => []
  | rule :: rest =>
    match firstQualifying rule prev with
    | some o => mkShadowFinding rule o :: shadowedSpecAux (prev ++ [rule]) rest
    | none => shadowedSpecAux (prev ++ [rule]) rest

/-- Spec 4.2 as a whole. -/
def shadowedSpec (rules : List Rule) : List Finding := shadowedSpecAux [] rules

/-- The inner scan of the detector agrees with firstQualifying whenever it
completes. -/
theorem shadowScan_eq (rule : Rule) (prev : List Rule) :
    ∀ r, shadowScan rule prev = some r →
      r = (firstQualifying rule prev).map (mkShadowFinding rule) := by
  induction prev with
  | nil =>
    intro r h
    simp only [shadowScan, Option.some.injEq] at h
    simp [firstQualifying, ← h]
  | cons o rest ih =>
    intro r h
    by_cases hp : rule.priority ≤ o.priority
    · rw [shadowScan, if_pos hp] at h
      rw [firstQualifying, if_neg (fun hq => absurd hq.1 (not_lt.mpr hp))]
      exact ih r h
    · by_cases ha : rule.action = o.action
      · rw [shadowScan, if_neg hp, if_pos ha] at h
        rw [firstQualifying, if_neg (fun hq => absurd ha hq.2.1)]
        exact ih r h
      · cases hts : traffic_subset rule o with
        | none => rw [shadowScan, if_neg hp, if_neg ha, hts] at h; cases h
        | some b =>
          cases b with
          | true =>
            rw [shadowScan, if_neg hp, if_neg ha, hts] at h
            injection h with h
            rw [firstQualifying, if_pos ⟨not_le.mp hp, ha, hts⟩]
            exact h.symm
          | false =>
            rw [shadowScan, if_neg hp, if_neg ha, hts] at h
            rw [firstQualifying,
              if_neg (fun hq => by rw [hq.2.2] at hts; simp at hts)]
            exact ih r h

/-- The outer loop of the detector agrees with the spec description
whenever it completes. -/
theorem detect_shadowed_aux_eq :
    ∀ (l prev : List Rule) (fs : List Finding), detect_shadowed_aux prev l = some fs →
      fs = shadowedSpecAux prev l
  | [], prev, fs, h => by
    simp only [detect_shadowed_aux, Option.some.injEq] at h
    simp [shadowedSpecAux, ← h]
  | rule :: rest, prev, fs, h => by
    simp only [detect_shadowed_aux] at h
    cases hs : shadowScan rule prev with
    | none => rw [hs] at h; cases h
    | some hit =>
      rw [hs] at h
      cases ht : detect_shadowed_aux (prev ++ [rule]) rest with
      | none => rw [ht] at h; cases h
      | some tail =>
        rw [ht] at h
        injection h with h
        have h1 := shadowScan_eq rule prev hit hs
        have h2 := detect_shadowed_aux_eq rest (prev ++ [rule]) tail ht
        cases hq : firstQualifying rule prev with
        | none => rw [hq] at h1; subst h1; simp [shadowedSpecAux, hq, ← h, h2]
        | some o => rw [hq] at h1; subst h1; simp [shadowedSpecAux, hq, ← h, h2]

/-- firstQualifying returns the first qualifying element in list order. -/
theorem firstQualifying_first (rule : Rule) :
    ∀ (l : List Rule) (o : Rule), firstQualifying rule l = some o →
      ∃ k : Fin l.length, l.get k = o ∧ shadowQualifies rule o ∧
        ∀ j : Fin l.length, j.val < k.val → ¬ shadowQualifies rule (l.get j) := by
  intro l
  induction l with
  | nil => intro o h; cases h
  | cons p rest ih =>
    intro o h
    by_cases hq : shadowQualifies rule p
    · rw [firstQualifying, if_pos hq] at h
      injection h with h
      subst h
      exact ⟨⟨0, Nat.succ_pos _⟩, rfl, hq, fun j hj => (Nat.not_lt_zero _ hj).elim⟩
    · rw [firstQualifying, if_neg hq] at h
      obtain ⟨k, hk, hqk, hmin⟩ := ih o h
      refine ⟨⟨k.val + 1, Nat.succ_lt_succ k.isLt⟩, by simpa using hk, hqk, ?_⟩
      intro j hj
      cases j with
      | mk jv hjv =>
        cases jv with
        | zero => simpa using hq
        | succ j2 =>
          intro hqj
          have hj2 : j2 < rest.length := by simp at hjv; omega
          exact hmin ⟨j2, hj2⟩ (by simpa using hj) (by simpa using hqj)

/-- Every element returned by firstQualifying qualifies. -/
theorem firstQualifying_sound (rule : Rule) (l : List Rule) (o : Rule)
    (h : firstQualifying rule l = some o) : shadowQualifies rule o := by
  obtain ⟨k, hk, hq, hmin⟩ := firstQualifying_first rule l o h
  exact hq

/-- Structural facts about every spec-side shadowing finding. -/
theorem shadowedSpecAux_sound :
    ∀ (l prev : List Rule), ∀ f ∈ shadowedSpecAux prev l,
      f.severity = "high" ∧ ∃ o, f.by_rule = some o ∧ o.priority < f.rule.priority ∧
        f.rule.action ≠ o.action ∧ traffic_subset f.rule o = some true := by
  intro l
  induction l with
  | nil => intro prev f hf; simp [shadowedSpecAux] at hf
  | cons rule rest ih =>
    intro prev f hf
    simp only [shadowedSpecAux] at hf
    cases hq : firstQualifying rule prev with
    | none =>
      rw [hq] at hf
      exact ih (prev ++ [rule]) f hf
    | some o =>
      rw [hq] at hf
      cases hf with
      | head =>
        obtain ⟨hp, ha, hts⟩ := firstQualifying_sound rule prev o hq
        exact ⟨rfl, o, rfl, hp, ha, hts⟩
      | tail _ hf => exact ih (prev ++ [rule]) f hf

/-- C1: when the shadowing detector completes, its findings are exactly
those of shadowedSpec: one finding per shadowed rule, for the first
preceding rule with strictly lower priority value, different action and
full traffic containment; every finding has severity high and never links
two rules with the same action; and firstQualifying really picks the
first qualifying predecessor in list order. -/
theorem detect_shadowed_rules_spec (rules : List Rule) (fs : List Finding)
    (h : detect_shadowed_rules rules = some fs) :
    fs = shadowedSpec rules ∧
    (∀ f ∈ fs, f.severity = "high" ∧ ∃ o, f.by_rule = some o ∧
      o.priority < f.rule.priority ∧ f.rule.action ≠ o.action ∧
      traffic_subset f.rule o = some true) ∧
    (∀ (prev : List Rule) (r o : Rule), firstQualifying r prev = some o →
      ∃ k : Fin prev.length, prev.get k = o ∧ shadowQualifies r o ∧
        ∀ j : Fin prev.length, j.val < k.val → ¬ shadowQualifies r (prev.get j)) := by
  have heq : fs = shadowedSpec rules := detect_shadowed_aux_eq rules [] fs h
  refine ⟨heq, ?_, fun prev r o hq => firstQualifying_first r prev o hq⟩
  intro f hf
  rw [heq] at hf
  exact shadowedSpecAux_sound rules [] f hf

/-- The higher-precedence deny rule of the spec scenario. -/
def shadowDenyRule : Rule :=
  { id := "1", name := "a", source := "10.0.0.0/8", destination := "*", port := "22",
    protocol := "tcp", action := "deny", priority := 1, hit_count := 5 }

/-- The shadowed allow rule of the spec scenario. -/
def shadowAllowRule : Rule :=
  { id := "2", name := "b", source := "10.0.0.0/16", destination := "*", port := "22",
    protocol := "tcp", action := "allow", priority := 2, hit_count := 5 }

/-- Witness for C1 on the spec scenario: rule 2 is shadowed by rule 1. -/
theorem detect_shadowed_rules_spec_witness :
    detect_shadowed_rules [shadowDenyRule, shadowAllowRule] =
      some [mkShadowFinding shadowAllowRule shadowDenyRule] ∧
    [mkShadowFinding shadowAllowRule shadowDenyRule] =
      shadowedSpec [shadowDenyRule, shadowAllowRule] :=
  ⟨by decide,
   (detect_shadowed_rules_spec [shadowDenyRule, shadowAllowRule]
     [mkShadowFinding shadowAllowRule shadowDenyRule] (by decide)).1⟩

/-- Spec 4.5: a table entry matches a rule when the service port is
contained in the rule port expression or the rule port expression is
contained in the service port singleton. -/
def unsafeHit (rule : Rule) (entry : String × String) : Prop :=
  is_port_subset entry.1 rule.port = some true ∨
    is_port_subset rule.port entry.1 = some true

instance unsafeHitDec (rule : Rule) (entry : String × String) : Decidable (unsafeHit rule entry) := by
  unfold unsafeHit
  infer_instance

/-- The label of the first matching table entry, in table order. -/
def unsafeFirstHit (rule : Rule) : List (String × String) → Option String
  | [] => none
  | entry :: rest =>
    if unsafeHit rule entry then some entry.2 else unsafeFirstHit rule rest

/-- Spec 4.5 for one rule: allow rules only, one finding for the first
matching service. -/
def unsafeSpec (rule : Rule) : Option Finding :=
  if rule.action ≠ "allow" then none
  else (unsafeFirstHit rule UNSAFE_SERVICES).map (mkUnsafeFinding rule)

/-- Spec 4.5 over a rule list. -/
def unsafeSpecList (rules : List Rule) : List Finding :=
  rules.filterMap unsafeSpec

/-- The table scan of the detector agrees with unsafeFirstHit whenever it
completes. -/
theorem unsafeScan_eq (rule : Rule) :
    ∀ (table : List (String × String)) (r : Option Finding),
      unsafeScan rule table = some r →
      r = (unsafeFirstHit rule table).map (mkUnsafeFinding rule) := by
  intro table
  induction table with
  | nil =>
    intro r h
    simp only [unsafeScan, Option.some.injEq] at h
    simp [unsafeFirstHit, ← h]
  | cons entry rest ih =>
    intro r h
    simp only [unsafeScan] at h
    cases h1 : is_port_subset entry.1 rule.port with
    | none => rw [h1] at h; cases h
    | some b1 =>
      rw [h1] at h
      cases b1 with
      | true =>
        injection h with h
        rw [unsafeFirstHit, if_pos (show unsafeHit rule entry from Or.inl h1)]
        exact h.symm
      | false =>
        cases h2 : is_port_subset rule.port entry.1 with
        | none => rw [h2] at h; cases h
        | some b2 =>
          rw [h2] at h
          cases b2 with
          | true =>
            injection h with h
            rw [unsafeFirstHit, if_pos (show unsafeHit rule entry from Or.inr h2)]
            exact h.symm
          | false =>
            rw [unsafeFirstHit, if_neg ?_]
            · exact ih r h
            · intro hq
              unfold unsafeHit at hq
              rcases hq with hq | hq
              · rw [hq] at h1; cases h1
              · rw [hq] at h2; cases h2

/-- The detector agrees with the spec description whenever it completes. -/
theorem detect_unsafe_services_eq :
    ∀ (l : List Rule) (fs : List Finding), detect_unsafe_services l = some fs →
      fs = unsafeSpecList l
  | [], fs, h => by
    simp only [detect_unsafe_services, Option.some.injEq] at h
    simp [unsafeSpecList, ← h]
  | rule :: rest, fs, h => by
    simp only [detect_unsafe_services] at h
    by_cases ha : rule.action = "allow"
    · rw [if_neg (fun hne => hne ha)] at h
      cases hs : unsafeScan rule UNSAFE_SERVICES with
      | none => rw [hs] at h; cases h
      | some hit =>
        rw [hs] at h
        cases ht : detect_unsafe_services rest with
        | none => rw [ht] at h; cases h
        | some tail =>
          rw [ht] at h
          injection h with h
          have h1 := unsafeScan_eq rule UNSAFE_SERVICES hit hs
          have h2 := detect_unsafe_services_eq rest tail ht
          subst h1
          cases hq : unsafeFirstHit rule UNSAFE_SERVICES with
          | none =>
            simp [unsafeSpecList, unsafeSpec, ha, hq, ← h, h2, List.filterMap_cons]
          | some s =>
            simp [unsafeSpecList, unsafeSpec, ha, hq, ← h, h2, List.filterMap_cons]
    · rw [if_pos ha] at h
      have h2 := detect_unsafe_services_eq rest fs h
      simp [unsafeSpecList, unsafeSpec, ha, List.filterMap_cons, h2]

/-- unsafeFirstHit returns the label of the first matching entry in table
order. -/
theorem unsafeFirstHit_first (rule : Rule) :
    ∀ (table : List (String × String)) (s : String), unsafeFirstHit rule table = some s →
      ∃ k : Fin table.length, (table.get k).2 = s ∧ unsafeHit rule (table.get k) ∧
        ∀ j : Fin table.length, j.val < k.val → ¬ unsafeHit rule (table.get j) := by
  intro table
  induction table with
  | nil => intro s h; cases h
  | cons p rest ih =>
    intro s h
    by_cases hq : unsafeHit rule p
    · rw [unsafeFirstHit, if_pos hq] at h
      injection h with h
      subst h
      exact ⟨⟨0, Nat.succ_pos _⟩, rfl, hq, fun j hj => (Nat.not_lt_zero _ hj).elim⟩
    · rw [unsafeFirstHit, if_neg hq] at h
      obtain ⟨k, hk, hqk, hmin⟩ := ih s h
      refine ⟨⟨k.val + 1, Nat.succ_lt_succ k.isLt⟩, by simpa using hk, by simpa using hqk, ?_⟩
      intro j hj
      cases j with
      | mk jv hjv =>
        cases jv with
        | zero => simpa using hq
        | succ j2 =>
          intro hqj
          have hj2 : j2 < rest.length := by simp at hjv; omega
          exact hmin ⟨j2, hj2⟩ (by simpa using hj) (by simpa using hqj)

/-- C7: when the unsafe-service detector completes, its findings are
exactly those of unsafeSpecList: allow rules only, at most one finding per
rule, for the first table entry with bidirectional port containment, with
severity high exactly when the source is universal and medium otherwise;
unsafeFirstHit really picks the first matching table entry. -/
theorem detect_unsafe_services_spec (rules : List Rule) (fs : List Finding)
    (h : detect_unsafe_services rules = some fs) :
    fs = unsafeSpecList rules ∧
    (∀ f ∈ fs, (f.severity = "high" ↔ (f.rule.source = "*" ∨ f.rule.source = "any")) ∧
      (f.severity = "high" ∨ f.severity = "medium") ∧ f.rule.action = "allow" ∧
      ∃ s, f.service = some s ∧ unsafeFirstHit f.rule UNSAFE_SERVICES = some s) ∧
    (∀ (rule : Rule) (table : List (String × String)) (s : String),
      unsafeFirstHit rule table = some s →
      ∃ k : Fin table.length, (table.get k).2 = s ∧ unsafeHit rule (table.get k) ∧
        ∀ j : Fin table.length, j.val < k.val → ¬ unsafeHit rule (table.get j)) := by
  have heq := detect_unsafe_services_eq rules fs h
  refine ⟨heq, ?_, fun rule table s hq => unsafeFirstHit_first rule table s hq⟩
  intro f hf
  rw [heq] at hf
  rw [unsafeSpecList, List.mem_filterMap] at hf
  obtain ⟨rule, hmem, hspec⟩ := hf
  rw [unsafeSpec] at hspec
  by_cases ha : rule.action = "allow"
  · rw [if_neg (fun hne => hne ha)] at hspec
    cases hq : unsafeFirstHit rule UNSAFE_SERVICES with
    | none => rw [hq] at hspec; cases hspec
    | some s =>
      rw [hq] at hspec
      injection hspec with hspec
      subst hspec
      refine ⟨?_, ?_, ha, s, rfl, hq⟩
      · rw [mkUnsafeFinding]
        by_cases hsrc : rule.source = "*" ∨ rule.source = "any"
        · simp [if_pos hsrc, hsrc]
        · simp only [if_neg hsrc]
          simp [hsrc]
      · rw [mkUnsafeFinding]
        by_cases hsrc : rule.source = "*" ∨ rule.source = "any"
        · simp [if_pos hsrc]
        · simp [if_neg hsrc]
  · rw [if_pos ha] at hspec
    cases hspec

/-- The rule of the spec telnet scenario. -/
def telnetRule : Rule :=
  { id := "3", name := "t", source := "*", destination := "10.0.0.1", port := "23",
    protocol := "tcp", action := "allow", priority := 1, hit_count := 5 }

/-- Witness for C7: the telnet rule gets one finding, for Telnet, severity
high. -/
theorem detect_unsafe_services_spec_witness :
    detect_unsafe_services [telnetRule] =
      some [mkUnsafeFinding telnetRule "Telnet en clair"] ∧
    [mkUnsafeFinding telnetRule "Telnet en clair"] = unsafeSpecList [telnetRule] :=
  ⟨by decide,
   (detect_unsafe_services_spec [telnetRule] [mkUnsafeFinding telnetRule "Telnet en clair"]
     (by decide)).1⟩

/-- C10: an allow rule with a universal port expression expands to the
full range, so the very first table entry already matches: the detector
emits exactly one finding for such a rule and it is the FTP entry
(port 21), whatever the rest of the table could match. -/
theorem universal_port_first_unsafe_service (rule : Rule)
    (h1 : rule.action = "allow") (h2 : rule.port = "*" ∨ rule.port = "any") :
    parse_ports rule.port = some [(1, 65535)] ∧
    unsafeScan rule UNSAFE_SERVICES = some (some (mkUnsafeFinding rule "FTP non chiffré")) ∧
    unsafeFirstHit rule UNSAFE_SERVICES = some "FTP non chiffré" ∧
    detect_unsafe_services [rule] = some [mkUnsafeFinding rule "FTP non chiffré"] := by
  have hp : parse_ports rule.port = some [(1, 65535)] := by
    rcases h2 with h2 | h2 <;> simp [parse_ports, h2]
  have h21 : parse_ports "21" = some [(21, 21)] := by decide
  have hsub : is_port_subset "21" rule.port = some true := by
    rw [is_port_subset_eval h21 hp]
    decide
  refine ⟨hp, ?_, ?_, ?_⟩
  · simp only [UNSAFE_SERVICES, unsafeScan, hsub]
  · simp only [UNSAFE_SERVICES, unsafeFirstHit]
    rw [if_pos (show unsafeHit rule ("21", "FTP non chiffré") from Or.inl hsub)]
  · have hsc : unsafeScan rule UNSAFE_SERVICES =
        some (some (mkUnsafeFinding rule "FTP non chiffré")) := by
      simp only [UNSAFE_SERVICES, unsafeScan, hsub]
    simp [detect_unsafe_services, h1, hsc]

/-- Witness for C10 on the all-universal allow rule. -/
theorem universal_port_first_unsafe_service_witness :
    uniAllowRule.action = "allow" ∧ (uniAllowRule.port = "*" ∨ uniAllowRule.port = "any") ∧
    detect_unsafe_services [uniAllowRule] =
      some [mkUnsafeFinding uniAllowRule "FTP non chiffré"] :=
  ⟨rfl, Or.inl rfl,
   (universal_port_first_unsafe_service uniAllowRule rfl (Or.inl rfl)).2.2.2⟩

/-- Spec 4.3 for one ordered pair, rule before other in list order:
duplicate on mutual containment, else subset when other is contained in a
rule that is not overly generic; nothing otherwise, and nothing when the
actions differ. -/
def redundantPairSpec (rule other : Rule) : Option Finding :=
  if rule.action ≠ other.action then none
  else if traffic_subset rule other = some true ∧ traffic_subset other rule = some true then
    some (mkRedundantFinding other rule "duplicate")
  else if traffic_subset other rule = some true ∧ is_overly_generic rule = false then
    some (mkRedundantFinding other rule "subset")
  else none

/-- Spec 4.3 over the whole list: every ordered pair, with no cap on the
number of findings a rule may accumulate. -/
def redundantSpec : List Rule → List Finding
  | [] => []
  | rule :: rest => rest.filterMap (redundantPairSpec rule) ++ redundantSpec rest

/-- The pair step of the detector agrees with the spec description
whenever it completes. -/
theorem redundantPair_eq (rule other : Rule) (r : Option Finding)
    (h : redundantPair rule other = some r) : r = redundantPairSpec rule other := by
  by_cases ha : rule.action = other.action
  · rw [redundantPair, if_neg (show ¬ rule.action ≠ other.action from fun hne => hne ha)] at h
    cases hab : traffic_subset rule other with
    | none => rw [hab] at h; cases h
    | some ab =>
      rw [hab] at h
      cases ab with
      | true =>
        cases hba : traffic_subset other rule with
        | none => rw [hba] at h; cases h
        | some ba =>
          rw [hba] at h
          cases ba with
          | true =>
            injection h with h
            subst h
            simp [redundantPairSpec, ha, hab, hba]
          | false =>
            injection h with h
            subst h
            simp [redundantPairSpec, ha, hab, hba]
      | false =>
        cases hba : traffic_subset other rule with
        | none => rw [hba] at h; cases h
        | some ba =>
          rw [hba] at h
          cases ba with
          | true =>
            rcases Bool.eq_false_or_eq_true (is_overly_generic rule) with hg | hg
            · rw [hg] at h
              simp at h
              subst h
              simp [redundantPairSpec, ha, hab, hba, hg]
            · rw [hg] at h
              simp at h
              subst h
              simp [redundantPairSpec, ha, hab, hba, hg]
          | false =>
            simp at h
            subst h
            simp [redundantPairSpec, ha, hab, hba]
  · rw [redundantPair, if_pos ha] at h
    injection h with h
    subst h
    simp [redundantPairSpec, ha]

/-- The inner loop of the detector agrees with the spec description
whenever it completes. -/
theorem redundantScan_eq (rule : Rule) :
    ∀ (l : List Rule) (fs : List Finding), redundantScan rule l = some fs →
      fs = l.filterMap (redundantPairSpec rule) := by
  intro l
  induction l with
  | nil =>
    intro fs h
    simp only [redundantScan, Option.some.injEq] at h
    simp [← h]
  | cons other rest ih =>
    intro fs h
    simp only [redundantScan] at h
    cases hp : redundantPair rule other with
    | none => rw [hp] at h; cases h
    | some hit =>
      rw [hp] at h
      cases ht : redundantScan rule rest with
      | none => rw [ht] at h; cases h
      | some tail =>
        rw [ht] at h
        injection h with h
        have h1 := redundantPair_eq rule other hit hp
        have h2 := ih tail ht
        subst h1
        cases hq : redundantPairSpec rule other with
        | none => simp [List.filterMap_cons, hq, ← h, h2]
        | some f => simp [List.filterMap_cons, hq, ← h, h2]

/-- The detector agrees with the spec description whenever it completes. -/
theorem detect_redundant_rules_eq :
    ∀ (l : List Rule) (fs : List Finding), detect_redundant_rules l = some fs →
      fs = redundantSpec l
  | [], fs, h => by
    simp only [detect_redundant_rules, Option.some.injEq] at h
    simp [redundantSpec, ← h]
  | rule :: rest, fs, h => by
    simp only [detect_redundant_rules] at h
    cases hs : redundantScan rule rest with
    | none => rw [hs] at h; cases h
    | some here =>
      rw [hs] at h
      cases ht : detect_redundant_rules rest with
      | none => rw [ht] at h; cases h
      | some tail =>
        rw [ht] at h
        injection h with h
        rw [redundantSpec, ← redundantScan_eq rule rest here hs,
          ← detect_redundant_rules_eq rest tail ht]
        exact h.symm

/-- Structural facts about every spec-side redundancy finding. -/
theorem redundantPairSpec_sound (rule other : Rule) (f : Finding)
    (h : redundantPairSpec rule other = some f) :
    f.severity = "low" ∧ f.rule = other ∧ f.reference = some rule ∧
      rule.action = other.action ∧
      ((f.kind = some "duplicate" ∧ traffic_subset rule other = some true ∧
        traffic_subset other rule = some true) ∨
       (f.kind = some "subset" ∧ traffic_subset other rule = some true ∧
        is_overly_generic rule = false)) := by
  rw [redundantPairSpec] at h
  by_cases ha : rule.action = other.action
  · rw [if_neg (show ¬ rule.action ≠ other.action from fun hne => hne ha)] at h
    by_cases hd : traffic_subset rule other = some true ∧ traffic_subset other rule = some true
    · rw [if_pos hd] at h
      injection h with h
      subst h
      exact ⟨rfl, rfl, rfl, ha, Or.inl ⟨rfl, hd.1, hd.2⟩⟩
    · rw [if_neg hd] at h
      by_cases hs : traffic_subset other rule = some true ∧ is_overly_generic rule = false
      · rw [if_pos hs] at h
        injection h with h
        subst h
        exact ⟨rfl, rfl, rfl, ha, Or.inr ⟨rfl, hs.1, hs.2⟩⟩
      · rw [if_neg hs] at h
        cases h
  · rw [if_pos ha] at h
    cases h

/-- Structural facts lifted to the whole spec-side list. -/
theorem redundantSpec_sound :
    ∀ (l : List Rule), ∀ f ∈ redundantSpec l,
      f.severity = "low" ∧ ∃ ref, f.reference = some ref ∧ ref.action = f.rule.action ∧
        ((f.kind = some "duplicate" ∧ traffic_subset ref f.rule = some true ∧
          traffic_subset f.rule ref = some true) ∨
         (f.kind = some "subset" ∧ traffic_subset f.rule ref = some true ∧
          is_overly_generic ref = false)) := by
  intro l
  induction l with
  | nil => intro f hf; simp [redundantSpec] at hf
  | cons rule rest ih =>
    intro f hf
    rw [redundantSpec, List.mem_append] at hf
    cases hf with
    | inl hf =>
      rw [List.mem_filterMap] at hf
      obtain ⟨other, hmem, hpair⟩ := hf
      obtain ⟨hsev, hsubj, href, hact, hkind⟩ := redundantPairSpec_sound rule other f hpair
      subst hsubj
      exact ⟨hsev, rule, href, hact, hkind⟩
    | inr hf => exact ih f hf

/-- Three rules with identical traffic and distinct ids. -/
def dupRuleA : Rule :=
  { id := "A", name := "A", source := "10.0.0.1", destination := "10.0.0.2", port := "80",
    protocol := "tcp", action := "allow", priority := 1, hit_count := 1 }

/-- Second identical rule. -/
def dupRuleB : Rule :=
  { id := "B", name := "B", source := "10.0.0.1", destination := "10.0.0.2", port := "80",
    protocol := "tcp", action := "allow", priority := 2, hit_count := 1 }

/-- Third identical rule. -/
def dupRuleC : Rule :=
  { id := "C", name := "C", source := "10.0.0.1", destination := "10.0.0.2", port := "80",
    protocol := "tcp", action := "allow", priority := 3, hit_count := 1 }

/-- C2: when the redundancy detector completes, its findings are exactly
those of redundantSpec: for every ordered pair with the later rule other,
a duplicate finding on other referencing rule iff both containments hold,
else a subset finding iff other is contained in rule and rule is not
overly generic; every finding has severity low, subset findings never
reference an overly generic rule, and a rule may accumulate several
findings, as the three identical rules show (two findings on the third
one). -/
theorem detect_redundant_rules_spec (rules : List Rule) (fs : List Finding)
    (h : detect_redundant_rules rules = some fs) :
    fs = redundantSpec rules ∧
    (∀ f ∈ fs, f.severity = "low" ∧ ∃ ref, f.reference = some ref ∧
      ref.action = f.rule.action ∧
      ((f.kind = some "duplicate" ∧ traffic_subset ref f.rule = some true ∧
        traffic_subset f.rule ref = some true) ∨
       (f.kind = some "subset" ∧ traffic_subset f.rule ref = some true ∧
        is_overly_generic ref = false))) ∧
    (∃ fs2, detect_redundant_rules [dupRuleA, dupRuleB, dupRuleC] = some fs2 ∧
      (fs2.filter (fun f => f.rule = dupRuleC)).length = 2 ∧ fs2.length = 3) := by
  have heq := detect_redundant_rules_eq rules fs h
  refine ⟨heq, ?_, ?_⟩
  · intro f hf
    rw [heq] at hf
    exact redundantSpec_sound rules f hf
  · exact ⟨redundantSpec [dupRuleA, dupRuleB, dupRuleC], by decide, by decide, by decide⟩

/-- A non-generic covering rule and a contained rule with the same
action. -/
def coverRule : Rule :=
  { id := "10", name := "c", source := "10.0.0.1", destination := "10.0.0.2", port := "80-90",
    protocol := "tcp", action := "allow", priority := 1, hit_count := 1 }

/-- A rule strictly contained in coverRule. -/
def insideRule : Rule :=
  { id := "11", name := "i", source := "10.0.0.1", destination := "10.0.0.2", port := "80",
    protocol := "tcp", action := "allow", priority := 2, hit_count := 1 }

/-- Witness for C2: the contained rule gets a subset finding referencing
the covering rule. -/
theorem detect_redundant_rules_spec_witness :
    detect_redundant_rules [coverRule, insideRule] =
      some [mkRedundantFinding insideRule coverRule "subset"] ∧
    [mkRedundantFinding insideRule coverRule "subset"] =
      redundantSpec [coverRule, insideRule] :=
  ⟨by decide,
   (detect_redundant_rules_spec [coverRule, insideRule]
     [mkRedundantFinding insideRule coverRule "subset"] (by decide)).1⟩

/-- Spec 4.6: a candidate at index j (paired as p) is strictly covered by
the rule at index i when it is another rule with the same action whose
traffic is contained in the rule without the converse holding. -/
def genQualifies (rule : Rule) (i : Nat) (p : Nat × Rule) : Prop :=
  p.1 ≠ i ∧ rule.action = p.2.action ∧ traffic_subset p.2 rule = some true ∧
    traffic_subset rule p.2 = some false

instance genQualifiesDec (rule : Rule) (i : Nat) (p : Nat × Rule) :
    Decidable (genQualifies rule i p) := by
  unfold genQualifies
  infer_instance

/-- Spec 4.6: every strictly covered companion of the rule at index i. -/
def coveredSpec (rules : List Rule) (i : Nat) (rule : Rule) : List Rule :=
  (rules.enum.filter (fun p => decide (genQualifies rule i p))).map Prod.snd

/-- Spec 4.6 over the whole list: one finding per rule with a non-empty
covered set, listing all covered rules and their count. -/
def generalizedSpec (rules : List Rule) : List Finding :=
  rules.enum.filterMap (fun p =>
    if (coveredSpec rules p.1 p.2).isEmpty then none
    else some (mkGeneralizedFinding p.2 (coveredSpec rules p.1 p.2)))

/-- The inner loop of the detector agrees with the spec description
whenever it completes. -/
theorem genCovered_eq (rule : Rule) (i : Nat) :
    ∀ (l : List Rule) (j : Nat) (out : List Rule), genCovered rule i j l = some out →
      out = ((l.enumFrom j).filter (fun p => decide (genQualifies rule i p))).map Prod.snd := by
  intro l
  induction l with
  | nil =>
    intro j out h
    simp only [genCovered, Option.some.injEq] at h
    simp [← h]
  | cons other rest ih =>
    intro j out h
    simp only [genCovered] at h
    simp only [List.enumFrom_cons, List.filter_cons]
    by_cases hj : j = i
    · rw [if_pos hj] at h
      rw [if_neg (show ¬ decide (genQualifies rule i (j, other)) = true by
        simp [genQualifies, hj])]
      exact ih (j + 1) out h
    · rw [if_neg hj] at h
      by_cases ha : rule.action = other.action
      · rw [if_neg (show ¬ rule.action ≠ other.action from fun hne => hne ha)] at h
        cases h1 : traffic_subset other rule with
        | none => rw [h1] at h; cases h
        | some b1 =>
          rw [h1] at h
          cases b1 with
          | false =>
            rw [if_neg (show ¬ decide (genQualifies rule i (j, other)) = true by
              simp [genQualifies, h1])]
            exact ih (j + 1) out h
          | true =>
            cases h2 : traffic_subset rule other with
            | none => rw [h2] at h; cases h
            | some b2 =>
              rw [h2] at h
              cases b2 with
              | true =>
                rw [if_neg (show ¬ decide (genQualifies rule i (j, other)) = true by
                  simp [genQualifies, h2])]
                exact ih (j + 1) out h
              | false =>
                cases ht : genCovered rule i (j + 1) rest with
                | none => rw [ht] at h; cases h
                | some tail =>
                  rw [ht] at h
                  injection h with h
                  rw [if_pos (show decide (genQualifies rule i (j, other)) = true by
                    simp [genQualifies, hj, ha, h1, h2])]
                  simp only [List.map_cons]
                  rw [← ih (j + 1) tail ht]
                  exact h.symm
      · rw [if_pos ha] at h
        rw [if_neg (show ¬ decide (genQualifies rule i (j, other)) = true by
          simp [genQualifies]; intro hne hact; exact absurd hact ha)]
        exact ih (j + 1) out h

/-- The outer loop of the detector agrees with the spec description
whenever it completes. -/
theorem detect_generalized_aux_eq (rules : List Rule) :
    ∀ (lp : List (Nat × Rule)) (fs : List Finding),
      detect_generalized_aux rules lp = some fs →
      fs = lp.filterMap (fun p =>
        if (coveredSpec rules p.1 p.2).isEmpty then none
        else some (mkGeneralizedFinding p.2 (coveredSpec rules p.1 p.2))) := by
  intro lp
  induction lp with
  | nil =>
    intro fs h
    simp only [detect_generalized_aux, Option.some.injEq] at h
    simp [← h]
  | cons p rest ih =>
    intro fs h
    obtain ⟨i, rule⟩ := p
    simp only [detect_generalized_aux] at h
    cases hc : genCovered rule i 0 rules with
    | none => rw [hc] at h; cases h
    | some covered =>
      rw [hc] at h
      cases ht : detect_generalized_aux rules rest with
      | none => rw [ht] at h; cases h
      | some tail =>
        rw [ht] at h
        injection h with h
        have h1 : covered = coveredSpec rules i rule := genCovered_eq rule i rules 0 covered hc
        have h2 := ih tail ht
        subst h1
        simp only [List.isEmpty_iff] at h
        by_cases he : coveredSpec rules i rule = []
        · simp [List.filterMap_cons, he, ← h, h2]
        · simp [List.filterMap_cons, he, ← h, h2]

/-- Structural facts about every spec-side generalization finding. -/
theorem generalizedSpec_sound (rules : List Rule) :
    ∀ f ∈ generalizedSpec rules,
      (f.severity = "high" ↔ is_overly_generic f.rule = true) ∧
      (f.severity = "high" ∨ f.severity = "medium") ∧
      ∃ cov, f.covered_rules = some cov ∧ cov ≠ [] ∧ f.count = cov.length ∧
        ∀ c ∈ cov, f.rule.action = c.action ∧ traffic_subset c f.rule = some true ∧
          traffic_subset f.rule c = some false := by
  intro f hf
  rw [generalizedSpec, List.mem_filterMap] at hf
  obtain ⟨p, hmem, hp⟩ := hf
  by_cases he : (coveredSpec rules p.1 p.2).isEmpty
  · rw [if_pos he] at hp; cases hp
  · rw [if_neg he] at hp
    injection hp with hp
    subst hp
    constructor
    · rw [mkGeneralizedFinding]
      cases hg : is_overly_generic p.2 with
      | true => simp [hg]
      | false => simp [hg]
    constructor
    · rw [mkGeneralizedFinding]
      cases hg : is_overly_generic p.2 with
      | true => simp [hg]
      | false => simp [hg]
    · refine ⟨coveredSpec rules p.1 p.2, rfl, ?_, rfl, ?_⟩
      · intro hnil
        rw [hnil] at he
        exact he rfl
      · intro c hc
        rw [coveredSpec, List.mem_map] at hc
        obtain ⟨q, hq, hq2⟩ := hc
        rw [List.mem_filter] at hq
        have hgq : genQualifies p.2 p.1 q := of_decide_eq_true hq.2
        subst hq2
        exact ⟨hgq.2.1, hgq.2.2.1, hgq.2.2.2⟩

/-- C8: when the generalization detector completes, its findings are
exactly those of generalizedSpec: for each rule, the strictly covered
same-action companions (containment one way, not the other), one finding
iff that set is non-empty, listing all covered rules and their count, with
severity high exactly when the rule itself is overly generic and medium
otherwise. -/
theorem detect_generalized_rules_spec (rules : List Rule) (fs : List Finding)
    (h : detect_generalized_rules rules = some fs) :
    fs = generalizedSpec rules ∧
    (∀ f ∈ fs,
      (f.severity = "high" ↔ is_overly_generic f.rule = true) ∧
      (f.severity = "high" ∨ f.severity = "medium") ∧
      ∃ cov, f.covered_rules = some cov ∧ cov ≠ [] ∧ f.count = cov.length ∧
        ∀ c ∈ cov, f.rule.action = c.action ∧ traffic_subset c f.rule = some true ∧
          traffic_subset f.rule c = some false) := by
  have heq : fs = generalizedSpec rules := detect_generalized_aux_eq rules rules.enum fs h
  refine ⟨heq, ?_⟩
  intro f hf
  rw [heq] at hf
  exact generalizedSpec_sound rules f hf

/-- The umbrella rule of the C8 witness. -/
def umbrellaRule : Rule :=
  { id := "20", name := "g", source := "*", destination := "*", port := "80",
    protocol := "tcp", action := "allow", priority := 1, hit_count := 1 }

/-- A narrow rule strictly covered by umbrellaRule. -/
def narrowRule : Rule :=
  { id := "21", name := "n", source := "10.0.0.1", destination := "10.0.0.2", port := "80",
    protocol := "tcp", action := "allow", priority := 2, hit_count := 1 }

/-- Witness for C8: the umbrella rule covers the narrow rule and gets one
finding with count 1, escalated to high because it is overly generic. -/
theorem detect_generalized_rules_spec_witness :
    detect_generalized_rules [umbrellaRule, narrowRule] =
      some [mkGeneralizedFinding umbrellaRule [narrowRule]] ∧
    [mkGeneralizedFinding umbrellaRule [narrowRule]] =
      generalizedSpec [umbrellaRule, narrowRule] :=
  ⟨by decide,
   (detect_generalized_rules_spec [umbrellaRule, narrowRule]
     [mkGeneralizedFinding umbrellaRule [narrowRule]] (by decide)).1⟩

/-- Spec 4.4 for one rule, as the spec words it: four independent checks,
the accumulated issue list, and severity the maximum of the triggered
floors. -/
def permissiveSpec (rule : Rule) : Option Finding :=
  if rule.action ≠ "allow" then none
  else
    let issues :=
      (if permCheck1 rule then [permIssue1] else []) ++
      (if permCheck2 rule then [permIssue2 rule.port] else []) ++
      (if permCheck3 rule then [permIssue3] else []) ++
      (if permCheck4 rule then [permIssue4] else [])
    let floors :=
      (if permCheck1 rule then ["high"] else []) ++
      (if permCheck2 rule then ["medium"] else []) ++
      (if permCheck3 rule then ["medium"] else []) ++
      (if permCheck4 rule then ["medium"] else [])
    if issues.isEmpty then none
    else some { rule := rule, issues := issues, severity := highest_severity floors }

/-- The per-rule body of the detector computes exactly the spec value. -/
theorem permissiveFinding_eq (rule : Rule) :
    permissiveFinding rule = permissiveSpec rule := by
  by_cases ha : rule.action = "allow"
  · cases h1 : permCheck1 rule <;> cases h2 : permCheck2 rule <;>
      cases h3 : permCheck3 rule <;> cases h4 : permCheck4 rule <;>
      simp [permissiveFinding, permissiveSpec, ha, h1, h2, h3, h4,
        max_severity, highest_severity, maxByOrder, sevOrder]
  · simp [permissiveFinding, permissiveSpec, ha]

/-- C6 (amended): the permissiveness detector emits exactly the findings
of permissiveSpec: one finding per allow rule with at least one triggered
check, carrying the accumulated issue list and the maximum triggered
floor, and no finding otherwise; the all-universal allow rule gets one
finding with three issues at severity high, the sensitive-port check not
firing because the port expression "*" is not in the sensitive set. -/
theorem detect_permissive_rules_spec (rules : List Rule) :
    detect_permissive_rules rules = rules.filterMap permissiveSpec ∧
    detect_permissive_rules [uniAllowRule] =
      [{ rule := uniAllowRule, issues := [permIssue1, permIssue3, permIssue4],
         severity := "high" }] := by
  constructor
  · rw [detect_permissive_rules]
    induction rules with
    | nil => rfl
    | cons r rest ih => simp [List.filterMap_cons, permissiveFinding_eq r, ih]
  · decide

/-- The three severity labels the counters know about. -/
def goodSev (s : String) : Prop := s = "high" ∨ s = "medium" ∨ s = "low"

/-- One bump adds exactly one to the counter total on a known label. -/
theorem bumpSev_sum (c : SevCounts) (s : String) (h : goodSev s) :
    (bumpSev c s).high + (bumpSev c s).medium + (bumpSev c s).low =
      c.high + c.medium + c.low + 1 := by
  rcases h with h | h | h <;> simp [bumpSev, h] <;> omega

/-- The inner fold of count_severities adds the list length on known
labels. -/
theorem foldl_bump_sum :
    ∀ (items : List Finding) (c : SevCounts), (∀ f ∈ items, goodSev f.severity) →
      (items.foldl (fun c2 item => bumpSev c2 item.severity) c).high +
        (items.foldl (fun c2 item => bumpSev c2 item.severity) c).medium +
        (items.foldl (fun c2 item => bumpSev c2 item.severity) c).low =
        c.high + c.medium + c.low + items.length := by
  intro items
  induction items with
  | nil => intro c hc; simp
  | cons f rest ih =>
    intro c hc
    simp only [List.foldl_cons, List.length_cons]
    rw [ih (bumpSev c f.severity) (fun g hg => hc g (List.mem_cons_of_mem f hg)),
      bumpSev_sum c f.severity (hc f (List.mem_cons_self f rest))]
    omega

/-- The counter total of count_severities is the total finding count on
known labels. -/
theorem count_severities_sum :
    ∀ (cats : List (String × List Finding)) (c : SevCounts),
      (∀ kv ∈ cats, ∀ f ∈ kv.2, goodSev f.severity) →
      (cats.foldl (fun c kv => kv.2.foldl (fun c2 item => bumpSev c2 item.severity) c) c).high +
        (cats.foldl (fun c kv => kv.2.foldl (fun c2 item => bumpSev c2 item.severity) c) c).medium +
        (cats.foldl (fun c kv => kv.2.foldl (fun c2 item => bumpSev c2 item.severity) c) c).low =
        c.high + c.medium + c.low + (cats.map (fun kv => kv.2.length)).sum := by
  intro cats
  induction cats with
  | nil => intro c hc; simp
  | cons kv rest ih =>
    intro c hc
    simp only [List.foldl_cons, List.map_cons, List.sum_cons]
    rw [ih _ (fun kv2 h2 => hc kv2 (List.mem_cons_of_mem kv h2)),
      foldl_bump_sum kv.2 c (hc kv (List.mem_cons_self kv rest))]
    omega

/-- Every shadowing finding carries a known severity label. -/
theorem shadowed_goodSev (rules : List Rule) (fs : List Finding)
    (h : detect_shadowed_rules rules = some fs) : ∀ f ∈ fs, goodSev f.severity := by
  intro f hf
  rw [detect_shadowed_aux_eq rules [] fs h] at hf
  exact Or.inl (shadowedSpecAux_sound rules [] f hf).1

/-- Every redundancy finding carries a known severity label. -/
theorem redundant_goodSev (rules : List Rule) (fs : List Finding)
    (h : detect_redundant_rules rules = some fs) : ∀ f ∈ fs, goodSev f.severity := by
  intro f hf
  rw [detect_redundant_rules_eq rules fs h] at hf
  exact Or.inr (Or.inr (redundantSpec_sound rules f hf).1)

/-- Every permissiveness finding carries a known severity label. -/
theorem permissive_goodSev (rules : List Rule) :
    ∀ f ∈ detect_permissive_rules rules, goodSev f.severity := by
  intro f hf
  rw [detect_permissive_rules, List.mem_filterMap] at hf
  obtain ⟨rule, hmem, hp⟩ := hf
  by_cases ha : rule.action = "allow"
  · cases h1 : permCheck1 rule <;> cases h2 : permCheck2 rule <;>
      cases h3 : permCheck3 rule <;> cases h4 : permCheck4 rule <;>
      simp [permissiveFinding, ha, h1, h2, h3, h4, max_severity, highest_severity,
        maxByOrder, sevOrder] at hp <;>
      simp [goodSev, ← hp]
  · simp [permissiveFinding, ha] at hp

/-- Every unused finding carries a known severity label. -/
theorem unused_goodSev (rules : List Rule) :
    ∀ f ∈ detect_unused_rules rules, goodSev f.severity := by
  intro f hf
  rw [detect_unused_rules, List.mem_filterMap] at hf
  obtain ⟨rule, hmem, hp⟩ := hf
  by_cases hz : rule.hit_count = 0
  · rw [if_pos hz] at hp
    injection hp with hp
    subst hp
    exact Or.inr (Or.inr rfl)
  · rw [if_neg hz] at hp
    cases hp

/-- Every unsafe-service finding carries a known severity label. -/
theorem unsafe_services_goodSev (rules : List Rule) (fs : List Finding)
    (h : detect_unsafe_services rules = some fs) : ∀ f ∈ fs, goodSev f.severity := by
  intro f hf
  rw [detect_unsafe_services_eq rules fs h, unsafeSpecList, List.mem_filterMap] at hf
  obtain ⟨rule, hmem, hp⟩ := hf
  rw [unsafeSpec] at hp
  by_cases ha : rule.action = "allow"
  · rw [if_neg (show ¬ rule.action ≠ "allow" from fun hne => hne ha)] at hp
    cases hq : unsafeFirstHit rule UNSAFE_SERVICES with
    | none => rw [hq] at hp; cases hp
    | some s =>
      rw [hq] at hp
      injection hp with hp
      subst hp
      rw [mkUnsafeFinding]
      by_cases hsrc : rule.source = "*" ∨ rule.source = "any"
      · rw [if_pos hsrc]; exact Or.inl rfl
      · rw [if_neg hsrc]; exact Or.inr (Or.inl rfl)
  · rw [if_pos ha] at hp; cases hp

/-- Every generalization finding carries a known severity label. -/
theorem generalized_goodSev (rules : List Rule) (fs : List Finding)
    (h : detect_generalized_rules rules = some fs) : ∀ f ∈ fs, goodSev f.severity := by
  intro f hf
  rw [detect_generalized_aux_eq rules rules.enum fs h] at hf
  rcases (generalizedSpec_sound rules f hf).2.1 with hs | hs
  · exact Or.inl hs
  · exact Or.inr (Or.inl hs)

/-- C4: the three counters of severity_counts sum to the total number of
findings across the six detector categories, each finding counted once at
its origin. -/
theorem severity_counts_total (rules : List Rule) (rep : Report)
    (h : detect_all_anomalies rules = some rep) :
    rep.severity_counts.high + rep.severity_counts.medium + rep.severity_counts.low =
      rep.shadowed.length + rep.redundant.length + rep.permissive.length +
        rep.unused.length + rep.unsafe_services.length + rep.generalized.length := by
  rw [detect_all_anomalies] at h
  cases hS : detect_shadowed_rules rules with
  | none => simp only [hS] at h; cases h
  | some shadowed =>
  simp only [hS] at h
  cases hR : detect_redundant_rules rules with
  | none => simp only [hR] at h; cases h
  | some redundant =>
  simp only [hR] at h
  cases hU : detect_unsafe_services rules with
  | none => simp only [hU] at h; cases h
  | some us =>
  simp only [hU] at h
  cases hG : detect_generalized_rules rules with
  | none => simp only [hG] at h; cases h
  | some generalized =>
  simp only [hG] at h
  cases hC : build_correlation rules
      [("shadowed", shadowed), ("redundant", redundant),
       ("permissive", detect_permissive_rules rules),
       ("unused", detect_unused_rules rules),
       ("unsafe_services", us), ("generalized", generalized)] with
  | none => simp only [hC] at h; cases h
  | some correlated =>
  simp only [hC] at h
  injection h with h
  subst h
  dsimp only
  rw [count_severities]
  rw [count_severities_sum _ { high := 0, medium := 0, low := 0 } ?_]
  · simp
    omega
  · intro kv hkv f hf
    simp only [List.mem_cons, List.not_mem_nil, or_false] at hkv
    rcases hkv with hkv | hkv | hkv | hkv | hkv | hkv <;> subst hkv
    · exact shadowed_goodSev rules shadowed hS f hf
    · exact redundant_goodSev rules redundant hR f hf
    · exact permissive_goodSev rules f hf
    · exact unused_goodSev rules f hf
    · exact unsafe_services_goodSev rules us hU f hf
    · exact generalized_goodSev rules generalized hG f hf

/-- The report of the two-rule shadowing scenario. -/
def scenarioReport : Report :=
  (detect_all_anomalies [shadowDenyRule, shadowAllowRule]).getD default

/-- Witness for C4 on the two-rule shadowing scenario. -/
theorem severity_counts_total_witness :
    detect_all_anomalies [shadowDenyRule, shadowAllowRule] = some scenarioReport ∧
    scenarioReport.severity_counts.high + scenarioReport.severity_counts.medium +
        scenarioReport.severity_counts.low =
      scenarioReport.shadowed.length + scenarioReport.redundant.length +
        scenarioReport.permissive.length + scenarioReport.unused.length +
        scenarioReport.unsafe_services.length + scenarioReport.generalized.length :=
  ⟨by decide,
   severity_counts_total [shadowDenyRule, shadowAllowRule] scenarioReport (by decide)⟩

/-- The (rule id, tag) touches of one finding in a category, in source
order: the subject rule, the by_rule link, the reference link, then every
covered rule with the literal tag "covered". -/
def touchesOf (key : String) (f : Finding) : List (String × String) :=
  (f.rule.id, key) ::
    ((match f.by_rule with | some lr => [(lr.id, key)] | none => []) ++
     (match f.reference with | some lr => [(lr.id, key)] | none => []) ++
     (match f.covered_rules with
      | some crs => crs.map (fun cr => (cr.id, "covered"))
      | none => []))

/-- The flat (category, finding) pairs of a category list, in order. -/
def catPairs (cats : List (String × List Finding)) : List (String × Finding) :=
  cats.flatMap (fun kv => kv.2.map (fun f => (kv.1, f)))

/-- All tags accumulated on the id k by a sequence of processed findings. -/
def tagAt (done : List (String × Finding)) (k : String) : List String :=
  done.flatMap (fun p =>
    ((touchesOf p.1 p.2).filter (fun t => decide (t.1 = k))).map Prod.snd)

/-- All severities accumulated on the id k by a sequence of processed
findings, one per touch, each the severity of the touching finding. -/
def sevAt (done : List (String × Finding)) (k : String) : List String :=
  done.flatMap (fun p =>
    ((touchesOf p.1 p.2).filter (fun t => decide (t.1 = k))).map (fun _ => p.2.severity))

/-- The correlation accumulator state after a sequence of processed
findings: one entry per rule, in input order, holding the accumulated
tags and severities of that rule. -/
def corrState (rules : List Rule) (done : List (String × Finding)) :
    List (String × CorrAcc) :=
  rules.map (fun r =>
    (r.id, { rule := r, tags := tagAt done r.id, severities := sevAt done r.id }))

/-- The seed fold appends one fresh entry per rule when all ids are new. -/
theorem seedCorr_aux :
    ∀ (l : List Rule) (m : List (String × CorrAcc)),
      (∀ r ∈ l, ∀ kv ∈ m, kv.1 ≠ r.id) → (l.map Rule.id).Nodup →
      l.foldl (fun m r => dictInsert m r.id { rule := r, tags := [], severities := [] }) m =
        m ++ l.map (fun r => (r.id, { rule := r, tags := [], severities := [] })) := by
  intro l
  induction l with
  | nil => intro m hm hn; simp
  | cons r rest ih =>
    intro m hm hn
    simp only [List.foldl_cons, List.map_cons]
    have hins : dictInsert m r.id { rule := r, tags := [], severities := [] } =
        m ++ [(r.id, { rule := r, tags := [], severities := [] })] := by
      rw [dictInsert, if_neg ?_]
      intro hany
      obtain ⟨kv, hkv, hbeq⟩ := List.any_eq_true.mp hany
      exact hm r (List.mem_cons_self r rest) kv hkv (by simpa using hbeq)
    have hpre : ∀ r2 ∈ rest, ∀ kv ∈ m ++ [(r.id, ({ rule := r, tags := [], severities := [] } : CorrAcc))], kv.1 ≠ r2.id := by
      intro r2 hr2 kv hkv
      rcases List.mem_append.mp hkv with hkv | hkv
      · exact hm r2 (List.mem_cons_of_mem r hr2) kv hkv
      · have hkv2 : kv = (r.id, { rule := r, tags := [], severities := [] }) := by
          simpa using hkv
        subst hkv2
        intro heq
        have hmem : r2.id ∈ rest.map Rule.id := List.mem_map_of_mem Rule.id hr2
        rw [← heq] at hmem
        exact (List.nodup_cons.mp hn).1 hmem
    rw [hins]
    conv_rhs => rw [List.append_cons]
    exact ih (m ++ [(r.id, { rule := r, tags := [], severities := [] })]) hpre
      (List.nodup_cons.mp hn).2

/-- With pairwise distinct ids the seed map is one empty accumulator per
rule, in input order. -/
theorem seedCorr_eq (rules : List Rule) (hids : (rules.map Rule.id).Nodup) :
    seedCorr rules = corrState rules [] := by
  rw [seedCorr, seedCorr_aux rules [] (by simp) hids]
  simp [corrState, tagAt, sevAt]

/-- One corrTag call on a per-rule state appends the tag and severity to
every entry whose id matches. -/
theorem corrTag_state (rules : List Rule) (T S : String → List String)
    (rid tag sev : String) (m2 : List (String × CorrAcc))
    (h : corrTag
        (rules.map (fun r => (r.id, { rule := r, tags := T r.id, severities := S r.id })))
        rid tag sev = some m2) :
    m2 = rules.map (fun r =>
      (r.id, { rule := r,
               tags := T r.id ++ if r.id = rid then [tag] else [],
               severities := S r.id ++ if r.id = rid then [sev] else [] })) := by
  rw [corrTag] at h
  by_cases hc : (rules.map (fun r =>
      (r.id, ({ rule := r, tags := T r.id, severities := S r.id } : CorrAcc)))).any
        (fun kv => kv.1 == rid)
  · rw [if_pos hc] at h
    injection h with h
    rw [← h, List.map_map]
    refine List.map_congr_left ?_
    intro r hr
    by_cases hid : r.id = rid
    · simp [Function.comp, hid]
    · simp [Function.comp, hid]
  · rw [if_neg hc] at h
    cases h

/-- Iterated corrTag on a per-rule state appends the matching touches in
order. -/
theorem corrTagFold_state (rules : List Rule) (sev : String) :
    ∀ (touches : List (String × String)) (T S : String → List String)
      (m2 : List (String × CorrAcc)),
      corrTagFold sev
        (rules.map (fun r => (r.id, { rule := r, tags := T r.id, severities := S r.id })))
        touches = some m2 →
      m2 = rules.map (fun r =>
        (r.id, { rule := r,
                 tags := T r.id ++ (touches.filter (fun t => decide (t.1 = r.id))).map Prod.snd,
                 severities := S r.id ++
                   (touches.filter (fun t => decide (t.1 = r.id))).map (fun _ => sev) })) := by
  intro touches
  induction touches with
  | nil =>
    intro T S m2 h
    simp only [corrTagFold, Option.some.injEq] at h
    rw [← h]
    simp
  | cons t rest ih =>
    intro T S m2 h
    simp only [corrTagFold] at h
    cases hstep : corrTag
        (rules.map (fun r => (r.id, { rule := r, tags := T r.id, severities := S r.id })))
        t.1 t.2 sev with
    | none => rw [hstep] at h; cases h
    | some m1 =>
      rw [hstep] at h
      have h1 := corrTag_state rules T S t.1 t.2 sev m1 hstep
      subst h1
      have h2 := ih (fun k => T k ++ if k = t.1 then [t.2] else [])
        (fun k => S k ++ if k = t.1 then [sev] else []) m2 h
      rw [h2]
      refine List.map_congr_left ?_
      intro r hr
      by_cases hid : t.1 = r.id
      · have hid2 : r.id = t.1 := hid.symm
        simp [List.filter_cons, hid2, List.append_assoc]
      · have hid2 : ¬ (r.id = t.1) := fun hh => hid hh.symm
        simp [List.filter_cons, hid, hid2]

/-- corrTagFold over an appended touch list runs the two parts in
sequence. -/
theorem corrTagFold_append (sev : String) :
    ∀ (l1 l2 : List (String × String)) (m : List (String × CorrAcc)),
      corrTagFold sev m (l1 ++ l2) =
        match corrTagFold sev m l1 with
        | none => none
        | some m2 => corrTagFold sev m2 l2 := by
  intro l1
  induction l1 with
  | nil => intro l2 m; simp [corrTagFold]
  | cons t rest ih =>
    intro l2 m
    simp only [List.cons_append, corrTagFold]
    cases corrTag m t.1 t.2 sev with
    | none => rfl
    | some m1 => exact ih l2 m1

/-- Processing one finding is the iterated corrTag over its touches. -/
theorem corrFinding_fold (key : String) (m : List (String × CorrAcc)) (item : Finding) :
    corrFinding key m item = corrTagFold item.severity m (touchesOf key item) := by
  rw [corrFinding, touchesOf]
  cases hb : item.by_rule with
  | none =>
    cases hr : item.reference with
    | none =>
      cases hcv : item.covered_rules with
      | none => rfl
      | some crs => rfl
    | some lr =>
      cases hcv : item.covered_rules with
      | none => rfl
      | some crs => rfl
  | some lr =>
    cases hr : item.reference with
    | none =>
      cases hcv : item.covered_rules with
      | none => rfl
      | some crs => rfl
    | some lr2 =>
      cases hcv : item.covered_rules with
      | none => rfl
      | some crs => rfl

/-- Processing the findings of one category advances the state by the
corresponding (category, finding) pairs. -/
theorem corrItems_state (rules : List Rule) (key : String) :
    ∀ (items : List Finding) (done : List (String × Finding)) (m2 : List (String × CorrAcc)),
      corrItems key (corrState rules done) items = some m2 →
      m2 = corrState rules (done ++ items.map (fun it => (key, it))) := by
  intro items
  induction items with
  | nil =>
    intro done m2 h
    simp only [corrItems, Option.some.injEq] at h
    rw [← h]
    simp
  | cons item rest ih =>
    intro done m2 h
    simp only [corrItems] at h
    cases hstep : corrFinding key (corrState rules done) item with
    | none => rw [hstep] at h; cases h
    | some m1 =>
      rw [hstep] at h
      rw [corrFinding_fold] at hstep
      have h1 : m1 = corrState rules (done ++ [(key, item)]) := by
        have h2 := corrTagFold_state rules item.severity (touchesOf key item)
          (fun k => tagAt done k) (fun k => sevAt done k) m1 hstep
        rw [h2, corrState]
        refine List.map_congr_left ?_
        intro r hr
        simp [tagAt, sevAt, List.flatMap_append]
      subst h1
      have h3 := ih (done ++ [(key, item)]) m2 h
      rw [h3, List.map_cons]
      conv_rhs => rw [List.append_cons]

/-- Processing all categories advances the state by all their flattened
pairs, in order. -/
theorem corrCats_state (rules : List Rule) :
    ∀ (cats : List (String × List Finding)) (done : List (String × Finding))
      (m2 : List (String × CorrAcc)),
      corrCats (corrState rules done) cats = some m2 →
      m2 = corrState rules (done ++ catPairs cats) := by
  intro cats
  induction cats with
  | nil =>
    intro done m2 h
    simp only [corrCats, Option.some.injEq] at h
    rw [← h]
    simp [catPairs]
  | cons kv rest ih =>
    intro done m2 h
    simp only [corrCats] at h
    cases hstep : corrItems kv.1 (corrState rules done) kv.2 with
    | none => rw [hstep] at h; cases h
    | some m1 =>
      rw [hstep] at h
      have h1 := corrItems_state rules kv.1 kv.2 done m1 hstep
      subst h1
      have h2 := ih (done ++ kv.2.map (fun it => (kv.1, it))) m2 h
      rw [h2]
      simp [catPairs, List.flatMap_cons, List.append_assoc]

/-- With pairwise distinct rule ids the whole correlation view is the
per-rule reduction of the accumulated touches. -/
theorem build_correlation_eq (rules : List Rule) (cats : List (String × List Finding))
    (corr : List CorrEntry) (hids : (rules.map Rule.id).Nodup)
    (h : build_correlation rules cats = some corr) :
    corr = rules.map (fun r =>
      { rule := r, tags := sortedDedup (tagAt (catPairs cats) r.id),
        severity :=
          if (sevAt (catPairs cats) r.id).isEmpty then none
          else some (highest_severity (sevAt (catPairs cats) r.id)) }) := by
  rw [build_correlation] at h
  cases hm : corrCats (seedCorr rules) cats with
  | none => rw [hm] at h; cases h
  | some m =>
    rw [hm] at h
    injection h with h
    rw [seedCorr_eq rules hids] at hm
    have h1 := corrCats_state rules cats [] m hm
    subst h1
    rw [← h, corrState, List.map_map]
    refine List.map_congr_left ?_
    intro r hr
    simp [Function.comp]

/-- Python max with the severity key keeps an element of maximal key. -/
theorem maxByOrder_mem : ∀ (l : List String) (cur : String),
    maxByOrder cur l = cur ∨ maxByOrder cur l ∈ l := by
  intro l
  induction l with
  | nil => intro cur; exact Or.inl rfl
  | cons s rest ih =>
    intro cur
    rw [maxByOrder]
    by_cases hc : sevOrder cur < sevOrder s
    · rw [if_pos hc]
      rcases ih s with h | h
      · exact Or.inr (List.mem_cons.mpr (Or.inl h))
      · exact Or.inr (List.mem_cons_of_mem s h)
    · rw [if_neg hc]
      rcases ih cur with h | h
      · exact Or.inl h
      · exact Or.inr (List.mem_cons_of_mem s h)

/-- Python max with the severity key dominates the start value and every
element. -/
theorem maxByOrder_ge : ∀ (l : List String) (cur s : String),
    (s = cur ∨ s ∈ l) → sevOrder s ≤ sevOrder (maxByOrder cur l) := by
  intro l
  induction l with
  | nil =>
    intro cur s hs
    rcases hs with h | h
    · subst h; exact le_refl _
    · cases h
  | cons x rest ih =>
    intro cur s hs
    rw [maxByOrder]
    by_cases hc : sevOrder cur < sevOrder x
    · rw [if_pos hc]
      rcases hs with h | h
      · subst h
        exact le_trans (le_of_lt hc) (ih x x (Or.inl rfl))
      · rcases List.mem_cons.mp h with h | h
        · rw [h]; exact ih x x (Or.inl rfl)
        · exact ih x s (Or.inr h)
    · rw [if_neg hc]
      rcases hs with h | h
      · exact ih cur s (Or.inl h)
      · rcases List.mem_cons.mp h with h | h
        · subst h
          exact le_trans (not_lt.mp hc) (ih cur cur (Or.inl rfl))
        · exact ih cur s (Or.inr h)

/-- The reported severity is one of the accumulated ones. -/
theorem highest_severity_mem (l : List String) (h : l ≠ []) : highest_severity l ∈ l := by
  cases l with
  | nil => exact absurd rfl h
  | cons s rest =>
    rw [highest_severity]
    rcases maxByOrder_mem rest s with h2 | h2
    · exact List.mem_cons.mpr (Or.inl h2)
    · exact List.mem_cons_of_mem s h2

/-- The reported severity dominates every accumulated one. -/
theorem highest_severity_ge (l : List String) (s : String) (hs : s ∈ l) :
    sevOrder s ≤ sevOrder (highest_severity l) := by
  cases l with
  | nil => cases hs
  | cons x rest =>
    rw [highest_severity]
    exact maxByOrder_ge rest x s (List.mem_cons.mp hs)

/-- sortedDedup output is sorted. -/
theorem sortedDedup_sorted (l : List String) :
    (sortedDedup l).Sorted (fun a b => a ≤ b) :=
  List.sorted_insertionSort _ _

/-- sortedDedup output has no duplicates. -/
theorem sortedDedup_nodup (l : List String) : (sortedDedup l).Nodup :=
  (List.perm_insertionSort _ _).nodup_iff.mpr (List.nodup_dedup l)

/-- C3: with pairwise distinct rule ids, a completed audit yields a
correlation view with exactly one entry per input rule, in input order
(rules touched by no finding included, with an empty tag set and severity
none); every entry has a sorted, duplicate-free tag set; each entry is
the reduction of the touches of all findings on that rule id, its
severity being none when no finding touches the rule and otherwise the
maximum severity among the touching findings (a value that occurs among
them and dominates all of them). -/
theorem build_correlation_complete (rules : List Rule) (rep : Report)
    (hids : (rules.map Rule.id).Nodup)
    (h : detect_all_anomalies rules = some rep) :
    rep.correlated.map CorrEntry.rule = rules ∧
    (∀ e ∈ rep.correlated, e.tags.Sorted (fun a b => a ≤ b) ∧ e.tags.Nodup) ∧
    rep.correlated = rules.map (fun r =>
      { rule := r, tags := sortedDedup (tagAt (catPairs (reportCats rep)) r.id),
        severity :=
          if (sevAt (catPairs (reportCats rep)) r.id).isEmpty then none
          else some (highest_severity (sevAt (catPairs (reportCats rep)) r.id)) }) ∧
    (∀ r ∈ rules, sevAt (catPairs (reportCats rep)) r.id ≠ [] →
      highest_severity (sevAt (catPairs (reportCats rep)) r.id) ∈
        sevAt (catPairs (reportCats rep)) r.id ∧
      ∀ s ∈ sevAt (catPairs (reportCats rep)) r.id,
        sevOrder s ≤ sevOrder (highest_severity (sevAt (catPairs (reportCats rep)) r.id))) := by
  rw [detect_all_anomalies] at h
  cases hS : detect_shadowed_rules rules with
  | none => simp only [hS] at h; cases h
  | some shadowed =>
  simp only [hS] at h
  cases hR : detect_redundant_rules rules with
  | none => simp only [hR] at h; cases h
  | some redundant =>
  simp only [hR] at h
  cases hU : detect_unsafe_services rules with
  | none => simp only [hU] at h; cases h
  | some us =>
  simp only [hU] at h
  cases hG : detect_generalized_rules rules with
  | none => simp only [hG] at h; cases h
  | some generalized =>
  simp only [hG] at h
  cases hC : build_correlation rules
      [("shadowed", shadowed), ("redundant", redundant),
       ("permissive", detect_permissive_rules rules),
       ("unused", detect_unused_rules rules),
       ("unsafe_services", us), ("generalized", generalized)] with
  | none => simp only [hC] at h; cases h
  | some correlated =>
  simp only [hC] at h
  injection h with h
  subst h
  dsimp only [reportCats]
  have hcorr := build_correlation_eq rules
    [("shadowed", shadowed), ("redundant", redundant),
     ("permissive", detect_permissive_rules rules),
     ("unused", detect_unused_rules rules),
     ("unsafe_services", us), ("generalized", generalized)] correlated hids hC
  refine ⟨?_, ?_, hcorr, ?_⟩
  · rw [hcorr, List.map_map]
    exact (List.map_congr_left (fun r _ => rfl)).trans (List.map_id rules)
  · intro e he
    rw [hcorr, List.mem_map] at he
    obtain ⟨r, hr, he⟩ := he
    rw [← he]
    exact ⟨sortedDedup_sorted _, sortedDedup_nodup _⟩
  · intro r hr hne
    exact ⟨highest_severity_mem _ hne, fun s hs => highest_severity_ge _ s hs⟩

/-- Witness for C3 on the two-rule shadowing scenario. -/
theorem build_correlation_complete_witness :
    (([shadowDenyRule, shadowAllowRule].map Rule.id).Nodup ∧
      detect_all_anomalies [shadowDenyRule, shadowAllowRule] = some scenarioReport) ∧
    scenarioReport.correlated.map CorrEntry.rule = [shadowDenyRule, shadowAllowRule] :=
  ⟨⟨by decide, by decide⟩,
   (build_correlation_complete [shadowDenyRule, shadowAllowRule] scenarioReport
     (by decide) (by decide)).1⟩
